import Mathlib

/-!
Shallow embedding of `RAGAIAtScale.py`: the crawl-queue claim/process/retry
state machine with content-addressed deduplication.

Modelling conventions:
* Python strings are modelled as `List Char` (`Str`).
* The two MongoDB collections are modelled as Lean lists; `update_one`,
  `find_one` and `find_one_and_update` act on the first matching element,
  as MongoDB does for single-document operations.
* `hashlib.sha256(...).hexdigest()` is an external primitive; every
  operation that hashes takes the digest function as a parameter `hash`.
* The BeautifulSoup markup-to-text reduction is an external collaborator;
  it is passed as a parameter `clean`.
* The Spider crawl provider (the HTTP POST plus stream-buffer-parse block
  of `process_data`) is passed as a parameter `provider`; `none` covers
  both a raised exception and a body that never parsed (`crawl_results is
  None`), which the code treats identically (`mark_as_error`).
* The global `interrupted` flag is cooperative state read at the top of
  each page iteration and at each orchestrator iteration; it is modelled
  as a Boolean schedule indexed by the iteration at which it is read.
* The `date_scraped` wall-clock field is outside the model.
-/

abbrev Str := List Char

-- Configuration parameters (RAGAIAtScale.py lines 21-29).
def UPDATE_EXISTING : Bool := false

def URL_PROCESS_LIMIT : Nat := 20

def RETRY_LIMIT : Nat := 3

def MAX_DOC_SIZE : Nat := 1024 * 1024

/-- `url.startswith(('http://', 'https://'))`. -/
def hasScheme (url : Str) : Bool :=
  "http://".toList.isPrefixOf url || "https://".toList.isPrefixOf url

/-- Python `str.rstrip('/')`: remove every trailing `'/'`. -/
def rstripSlash (s : Str) : Str :=
  (s.reverse.dropWhile (fun c => c == '/')).reverse

/-- `normalize_base_url` (lines 65-69): prepend `https://` when no scheme
prefix is present, then strip all trailing slashes. -/
def normalize_base_url (url : Str) : Str :=
  rstripSlash (if hasScheme url then url else "https://".toList ++ url)

theorem dropWhile_idem (p : Char → Bool) (l : List Char) :
    (l.dropWhile p).dropWhile p = l.dropWhile p := by
  induction l with
  | nil => rfl
  | cons a l ih =>
    by_cases h : p a = true
    · simpa [List.dropWhile_cons, h] using ih
    · simp [List.dropWhile_cons, h]

theorem rstripSlash_idem (s : Str) :
    rstripSlash (rstripSlash s) = rstripSlash s := by
  unfold rstripSlash
  rw [List.reverse_reverse, dropWhile_idem]

theorem head_dropWhile_false (p : Char → Bool) (l : List Char) (a : Char)
    (h : (l.dropWhile p).head? = some a) : p a = false := by
  induction l with
  | nil => simp [List.dropWhile] at h
  | cons b l ih =>
    by_cases hb : p b = true
    · rw [List.dropWhile_cons, if_pos hb] at h
      exact ih h
    · rw [List.dropWhile_cons, if_neg hb] at h
      simp at h
      rw [← h]
      exact eq_false_of_ne_true hb

theorem rstripSlash_getLast (s : Str) :
    (rstripSlash s).getLast? ≠ some '/' := by
  intro h
  unfold rstripSlash at h
  rw [List.getLast?_reverse] at h
  have := head_dropWhile_false (fun c => c == '/') s.reverse _ h
  simp at this

/-- UTF-8 encoding of one Unicode scalar value, as `str.encode('utf-8')`
produces per character. -/
def utf8EncodeChar (c : Char) : List Nat :=
  let n := c.toNat
  if n < 128 then [n]
  else if n < 2048 then [192 + n / 64, 128 + n % 64]
  else if n < 65536 then [224 + n / 4096, 128 + (n / 64) % 64, 128 + n % 64]
  else [240 + n / 262144, 128 + (n / 4096) % 64, 128 + (n / 64) % 64, 128 + n % 64]

/-- `content.encode('utf-8')` as a byte list. -/
def utf8Encode : Str → List Nat
  | [] => []
  | c :: cs => utf8EncodeChar c ++ utf8Encode cs

def isContByte (b : Nat) : Bool := 128 ≤ b && b < 192

/-- Parse one UTF-8 scalar from the front of a byte list: the decoded
character together with the number of bytes consumed. `none` when the
front does not start a complete valid sequence (Python's
`errors='ignore'` then drops a byte). Overlong encodings, surrogates and
out-of-range values are rejected, as CPython's decoder does. -/
def utf8ParseOne : List Nat → Option (Char × Nat)
  | [] => none
  | b1 :: rest =>
    if b1 < 128 then some (Char.ofNat b1, 1)
    else if 194 ≤ b1 && b1 < 224 then
      match rest with
      | b2 :: _ =>
        if isContByte b2 then some (Char.ofNat ((b1 - 192) * 64 + (b2 - 128)), 2)
        else none
      | [] => none
    else if 224 ≤ b1 && b1 < 240 then
      match rest with
      | b2 :: b3 :: _ =>
        if isContByte b2 && isContByte b3
            && decide (2048 ≤ (b1 - 224) * 4096 + (b2 - 128) * 64 + (b3 - 128))
            && !(decide (55296 ≤ (b1 - 224) * 4096 + (b2 - 128) * 64 + (b3 - 128))
                  && decide ((b1 - 224) * 4096 + (b2 - 128) * 64 + (b3 - 128) < 57344)) then
          some (Char.ofNat ((b1 - 224) * 4096 + (b2 - 128) * 64 + (b3 - 128)), 3)
        else none
      | _ => none
    else if 240 ≤ b1 && b1 < 245 then
      match rest with
      | b2 :: b3 :: b4 :: _ =>
        if isContByte b2 && isContByte b3 && isContByte b4
            && decide (65536 ≤ (b1 - 240) * 262144 + (b2 - 128) * 4096 + (b3 - 128) * 64 + (b4 - 128))
            && decide ((b1 - 240) * 262144 + (b2 - 128) * 4096 + (b3 - 128) * 64 + (b4 - 128) < 1114112) then
          some (Char.ofNat ((b1 - 240) * 262144 + (b2 - 128) * 4096 + (b3 - 128) * 64 + (b4 - 128)), 4)
        else none
      | _ => none
    else none

theorem char_toNat_ofNat (n : Nat) (h : n.isValidChar) :
    (Char.ofNat n).toNat = n := by
  simp [Char.ofNat, h]
  rfl

theorem encChar_len_one (n : Nat) (h1 : n < 128) :
    utf8EncodeChar (Char.ofNat n) = [n] := by
  have hv : n.isValidChar := Or.inl (by omega)
  simp only [utf8EncodeChar, char_toNat_ofNat n hv]
  rw [if_pos h1]

theorem encChar_len_two (n : Nat) (h1 : 128 ≤ n) (h2 : n < 2048) :
    (utf8EncodeChar (Char.ofNat n)).length = 2 := by
  have hv : n.isValidChar := Or.inl (by omega)
  simp only [utf8EncodeChar, char_toNat_ofNat n hv]
  rw [if_neg (by omega), if_pos h2]
  rfl

theorem encChar_len_three (n : Nat) (h1 : 2048 ≤ n) (h2 : n < 65536)
    (h3 : ¬(55296 ≤ n ∧ n < 57344)) :
    (utf8EncodeChar (Char.ofNat n)).length = 3 := by
  have hv : n.isValidChar := by
    rcases Nat.lt_or_ge n 55296 with h | h
    · exact Or.inl h
    · exact Or.inr ⟨by omega, by omega⟩
  simp only [utf8EncodeChar, char_toNat_ofNat n hv]
  rw [if_neg (by omega), if_neg (by omega), if_pos h2]
  rfl

theorem encChar_len_four (n : Nat) (h1 : 65536 ≤ n) (h2 : n < 1114112) :
    (utf8EncodeChar (Char.ofNat n)).length = 4 := by
  have hv : n.isValidChar := Or.inr ⟨by omega, by omega⟩
  simp only [utf8EncodeChar, char_toNat_ofNat n hv]
  rw [if_neg (by omega), if_neg (by omega), if_neg (by omega)]
  rfl

theorem utf8ParseOne_spec (l : List Nat) (c : Char) (k : Nat)
    (h : utf8ParseOne l = some (c, k)) :
    1 ≤ k ∧ k ≤ l.length ∧ (utf8EncodeChar c).length = k := by
  match l with
  | [] => simp [utf8ParseOne] at h
  | b1 :: rest =>
    simp only [utf8ParseOne] at h
    split_ifs at h with ha hb hc hd
    · rw [Option.some.injEq, Prod.mk.injEq] at h
      obtain ⟨h1, h2⟩ := h
      subst h2
      refine ⟨by omega, by simp, ?_⟩
      rw [← h1, encChar_len_one b1 ha]
      rfl
    · match rest with
      | [] => exact absurd h (by simp)
      | b2 :: rest2 =>
        dsimp only at h
        split_ifs at h with hcont
        rw [Option.some.injEq, Prod.mk.injEq] at h
        obtain ⟨h1, h2⟩ := h
        subst h2
        simp only [Bool.and_eq_true, decide_eq_true_eq] at hb
        simp only [isContByte, Bool.and_eq_true, decide_eq_true_eq] at hcont
        refine ⟨by omega, by simp, ?_⟩
        rw [← h1, encChar_len_two _ (by omega) (by omega)]
    · match rest with
      | [] => exact absurd h (by simp)
      | [b2] => exact absurd h (by simp)
      | b2 :: b3 :: rest3 =>
        dsimp only at h
        split_ifs at h with hcont
        rw [Option.some.injEq, Prod.mk.injEq] at h
        obtain ⟨h1, h2⟩ := h
        subst h2
        simp only [Bool.and_eq_true, decide_eq_true_eq] at hc
        simp only [isContByte, Bool.and_eq_true, Bool.not_eq_true', Bool.and_eq_false_iff,
          decide_eq_true_eq, decide_eq_false_iff_not, not_lt, not_le] at hcont
        refine ⟨by omega, by simp, ?_⟩
        rw [← h1, encChar_len_three _ (by omega) (by omega) (by omega)]
    · match rest with
      | [] => exact absurd h (by simp)
      | [b2] => exact absurd h (by simp)
      | [b2, b3] => exact absurd h (by simp)
      | b2 :: b3 :: b4 :: rest4 =>
        dsimp only at h
        split_ifs at h with hcont
        rw [Option.some.injEq, Prod.mk.injEq] at h
        obtain ⟨h1, h2⟩ := h
        subst h2
        simp only [Bool.and_eq_true, decide_eq_true_eq] at hd
        simp only [isContByte, Bool.and_eq_true, decide_eq_true_eq] at hcont
        refine ⟨by omega, by simp, ?_⟩
        rw [← h1, encChar_len_four _ (by omega) (by omega)]

/-- `bytes.decode('utf-8', errors='ignore')`: decode scalars greedily and
drop bytes that do not start a complete valid sequence. -/
def utf8DecodeIgnore (l : List Nat) : List Char :=
  match l with
  | [] => []
  | b1 :: rest =>
    match h : utf8ParseOne (b1 :: rest) with
    | some ck => ck.1 :: utf8DecodeIgnore ((b1 :: rest).drop ck.2)
    | none => utf8DecodeIgnore rest
termination_by l.length
decreasing_by
  · have hs := utf8ParseOne_spec (b1 :: rest) ck.1 ck.2 (by rw [h])
    simp only [List.length_drop, List.length_cons]
    omega
  · simp only [List.length_cons]
    omega

theorem utf8Encode_append (s t : Str) :
    utf8Encode (s ++ t) = utf8Encode s ++ utf8Encode t := by
  induction s with
  | nil => rfl
  | cons c cs ih => simp [utf8Encode, ih]

/-- Decoding with `errors='ignore'` and re-encoding never grows the byte
count: every emitted scalar re-encodes to exactly the bytes it consumed,
and dropped bytes contribute nothing. -/
theorem utf8DecodeIgnore_len_le (l : List Nat) :
    (utf8Encode (utf8DecodeIgnore l)).length ≤ l.length := by
  match l with
  | [] => simp [utf8DecodeIgnore, utf8Encode]
  | b1 :: rest =>
    rw [utf8DecodeIgnore]
    cases heq : utf8ParseOne (b1 :: rest) with
    | none =>
      simp only [heq]
      have ih := utf8DecodeIgnore_len_le rest
      simp only [List.length_cons]
      omega
    | some ck =>
      simp only [heq]
      have hs := utf8ParseOne_spec (b1 :: rest) ck.1 ck.2 (by rw [heq])
      have ih := utf8DecodeIgnore_len_le ((b1 :: rest).drop ck.2)
      simp only [utf8Encode, List.length_append, List.length_drop, List.length_cons] at *
      omega
termination_by l.length
decreasing_by
  · simp only [List.length_cons]
    omega
  · have hs := utf8ParseOne_spec (b1 :: rest) ck.1 ck.2 (by rw [heq])
    simp only [List.length_drop, List.length_cons]
    omega

/-- `truncate_content` (lines 76-82): encode, and when over `max_size`
bytes, keep the first `max_size` bytes and decode them ignoring errors. -/
def truncate_content (content : Str) (max_size : Nat) : Str :=
  let content_bytes := utf8Encode content
  if content_bytes.length > max_size then
    utf8DecodeIgnore (content_bytes.take max_size)
  else content

/-- Whatever the input, the truncated content re-encodes to at most
`max_size` bytes whenever the original exceeded `max_size`. -/
theorem truncate_content_le (content : Str) (max_size : Nat)
    (h : max_size < (utf8Encode content).length) :
    (utf8Encode (truncate_content content max_size)).length ≤ max_size := by
  unfold truncate_content
  rw [if_pos (by omega)]
  have h1 := utf8DecodeIgnore_len_le ((utf8Encode content).take max_size)
  have h2 : ((utf8Encode content).take max_size).length = max_size := by
    rw [List.length_take]
    omega
  omega

/-- One document of the `school_data` collection (the site registry).
The Python documents carry the flags only once set; `$ne: True` matches a
missing field exactly like `False`, and the `error` flag is only ever set
to `True`, so Booleans with `false` meaning absent are faithful. -/
structure SchoolRec where
  webaddr : Str
  unitid : Str
  processed : Bool
  processing : Bool
  error : Bool
  retry_count : Nat
deriving DecidableEq

/-- One document of the `documents` collection (a stored page). The
`date_scraped` wall-clock field is outside the model. -/
structure DocRec where
  doc_id : Str
  Base_URL : Str
  UNITID : Str
  website : Str
  url : Str
  content : Str
  content_hash : Str
deriving DecidableEq

/-- The whole persistent store: both MongoDB collections. -/
structure St where
  documents : List DocRec
  school_data : List SchoolRec
deriving DecidableEq

/-- `update_one(filter, update)`: update the first matching document. -/
def update_first (p : SchoolRec → Bool) (f : SchoolRec → SchoolRec) :
    List SchoolRec → List SchoolRec
  | [] => []
  | s :: ss => if p s then f s :: ss else s :: update_first p f ss

/-- `find_one(filter)`: the first matching document. -/
def find_one (p : SchoolRec → Bool) (ss : List SchoolRec) : Option SchoolRec :=
  ss.find? p

/-- `find_one_and_update(filter, update, return_document=True)`: one atomic
step that selects the first matching document, applies the update, and
returns the post-update document (`return_document=True` is
`ReturnDocument.AFTER`). The returned index instruments which stored
record was selected, so that record identity is expressible. -/
def find_one_and_update (p : SchoolRec → Bool) (f : SchoolRec → SchoolRec) :
    List SchoolRec → Option (Nat × SchoolRec) × List SchoolRec
  | [] => (none, [])
  | s :: ss =>
    if p s then (some (0, f s), f s :: ss)
    else
      let r := find_one_and_update p f ss
      (r.1.map (fun ir => (ir.1 + 1, ir.2)), s :: r.2)

/-- The `claimNext` filter of `fetch_and_process_next_url` (lines
247-251): not processed, not being processed, no error flag. -/
def claimable (s : SchoolRec) : Bool :=
  !s.processed && !s.processing && !s.error

/-- The `claimNext` update (line 252): set `processing` to `True`. -/
def set_processing (s : SchoolRec) : SchoolRec :=
  { s with processing := true }

/-- `document_exists` (lines 71-74): any stored document whose `Base_URL`
is the normalization of the given base URL with the given content hash. -/
def document_exists (base_url content_hash : Str) (docs : List DocRec) : Bool :=
  docs.any (fun d => d.Base_URL == normalize_base_url base_url && d.content_hash == content_hash)

/-- `insert_document` (lines 84-105). The inner duplicate test models the
unique index on `(Base_URL, content_hash)` created by `create_indexes`
(line 63): `insert_one` raises `DuplicateKeyError` for a clashing write
and the code catches it and skips. `DocumentTooLarge` cannot fire after
truncation to `MAX_DOC_SIZE` (far below the BSON cap) and is not
modelled. -/
def insert_document (hash : Str → Str) (doc_id base_url unitid website url content : Str)
    (docs : List DocRec) : List DocRec :=
  let content_hash := hash content
  let truncated_content := truncate_content content MAX_DOC_SIZE
  if !(document_exists base_url content_hash docs) || UPDATE_EXISTING then
    if docs.any (fun d => d.Base_URL == base_url && d.content_hash == content_hash) then
      docs
    else
      docs ++ [⟨doc_id, base_url, unitid, website, url, truncated_content, content_hash⟩]
  else docs

/-- `baseurl_already_processed` (lines 107-115): look the normalized URL
up among stored documents; when found, mark the school whose `WEBADDR`
equals the argument as processed. Note the school update is keyed by the
argument (which `process_data` passes already normalized), while school
records store the raw address. -/
def baseurl_already_processed (base_url : Str) (st : St) : Bool × St :=
  let normalized_url := normalize_base_url base_url
  match st.documents.find? (fun d => d.Base_URL == normalized_url) with
  | some _ =>
    (true,
      { st with
        school_data := update_first (fun s => s.webaddr == base_url)
          (fun s => { s with processed := true, processing := false }) st.school_data })
  | none => (false, st)

/-- `mark_as_error` (lines 117-122): increment `retry_count`, re-read the
school, and when the new count reaches `RETRY_LIMIT` set the error flag
and clear `processing`. Below the limit nothing else changes. -/
def mark_as_error (base_url : Str) (st : St) : St :=
  let st1 : St :=
    { st with
      school_data := update_first (fun s => s.webaddr == base_url)
        (fun s => { s with retry_count := s.retry_count + 1 }) st.school_data }
  match find_one (fun s => s.webaddr == base_url) st1.school_data with
  | some school =>
    if school.retry_count ≥ RETRY_LIMIT then
      { st1 with
        school_data := update_first (fun s => s.webaddr == base_url)
          (fun s => { s with error := true, processing := false }) st1.school_data }
    else st1
  | none => st1

/-- One element of the provider's `items` array: the page URL and the raw
markup (`None` when no content was retrieved). -/
structure PageItem where
  url : Str
  content : Option Str
deriving DecidableEq

/-- The `for item in crawl_results` loop of `process_data` (lines
198-241), including the final mark-as-processed update after an
uninterrupted pass. `intr i` is the value of the global `interrupted`
flag read at the top of iteration `i`. -/
def pageLoop (hash clean : Str → Str) (base_url normalized_base_url unitid : Str)
    (intr : Nat → Bool) : List PageItem → Nat → St → St
  | [], _, st =>
    { st with
      school_data := update_first (fun s => s.webaddr == base_url)
        (fun s => { s with processed := true, processing := false }) st.school_data }
  | item :: rest, i, st =>
    if intr i then
      { st with
        school_data := update_first (fun s => s.webaddr == base_url)
          (fun s => { s with processing := false }) st.school_data }
    else
      match item.content with
      | none => pageLoop hash clean base_url normalized_base_url unitid intr rest (i + 1) st
      | some html =>
        let text := clean html
        let doc_id := hash (text ++ item.url)
        pageLoop hash clean base_url normalized_base_url unitid intr rest (i + 1)
          { st with
            documents := insert_document hash doc_id normalized_base_url unitid
              normalized_base_url item.url text st.documents }

/-- `process_data` (lines 124-241). Returns the new store and whether the
crawl provider was invoked. `provider` maps the normalized URL to the
parsed `items` list, or `none` for a fetch failure (raised exception or a
body that never parsed); both failure paths call `mark_as_error`. -/
def process_data (hash clean : Str → Str) (provider : Str → Option (List PageItem))
    (intr : Nat → Bool) (st : St) (data : SchoolRec) : St × Bool :=
  let base_url := data.webaddr
  let unitid := data.unitid
  if base_url == [] || unitid == [] then (st, false)
  else
    let normalized_base_url := normalize_base_url base_url
    match baseurl_already_processed normalized_base_url st with
    | (true, st1) => (st1, false)
    | (false, st1) =>
      match provider normalized_base_url with
      | none => (mark_as_error base_url st1, true)
      | some crawl_results =>
        (pageLoop hash clean base_url normalized_base_url unitid intr crawl_results 0 st1, true)

/-- `fetch_and_process_next_url` (lines 243-261): one atomic
find-and-update claims the next eligible school (setting `processing`),
then the claimed record is processed; when nothing matches, the store is
untouched. -/
def fetch_and_process_next_url (hash clean : Str → Str)
    (provider : Str → Option (List PageItem)) (intr : Nat → Bool) (st : St) : St :=
  match find_one_and_update claimable set_processing st.school_data with
  | (none, _) => st
  | (some ir, schools1) =>
    (process_data hash clean provider intr { st with school_data := schools1 } ir.2).1

/-- The `while processed_count < URL_PROCESS_LIMIT and not interrupted`
loop of `scrape_and_store` (lines 270-272). `intrL c` is the interrupted
flag read by the guard when the counter holds `c`; `intrPage c` is the
flag schedule seen by the page loop of iteration `c`. The structural
`fuel` only bounds recursion: the guard stops the loop once the counter
reaches `URL_PROCESS_LIMIT`, and since the counter grows by one each
iteration a fuel of `URL_PROCESS_LIMIT - processed_count` is never the
binding constraint (`scrape_loop_fuel_irrelevant`). -/
def scrape_loop (hash clean : Str → Str) (provider : Str → Option (List PageItem))
    (intrL : Nat → Bool) (intrPage : Nat → Nat → Bool) :
    Nat → St → Nat → St × Nat
  | 0, st, processed_count => (st, processed_count)
  | fuel + 1, st, processed_count =>
    if processed_count < URL_PROCESS_LIMIT ∧ intrL processed_count = false then
      scrape_loop hash clean provider intrL intrPage fuel
        (fetch_and_process_next_url hash clean provider (intrPage processed_count) st)
        (processed_count + 1)
    else (st, processed_count)

/-- `scrape_and_store` (lines 263-279): run the loop from a zero counter.
The returned number is the final `processed_count`, i.e. how many loop
iterations ran. -/
def scrape_and_store (hash clean : Str → Str) (provider : Str → Option (List PageItem))
    (intrL : Nat → Bool) (intrPage : Nat → Nat → Bool) (st : St) : St × Nat :=
  scrape_loop hash clean provider intrL intrPage URL_PROCESS_LIMIT st 0

/-- Exactly the document-store effect of running the page loop over a
list of items with no interruption: fold `insert_document` over the pages
that have content. -/
def insertPages (hash clean : Str → Str) (normalized_base_url unitid : Str)
    (items : List PageItem) (docs : List DocRec) : List DocRec :=
  items.foldl
    (fun ds item =>
      match item.content with
      | none => ds
      | some html =>
        insert_document hash (hash (clean html ++ item.url)) normalized_base_url unitid
          normalized_base_url item.url (clean html) ds)
    docs

theorem scrape_loop_count_le (hash clean : Str → Str)
    (provider : Str → Option (List PageItem)) (intrL : Nat → Bool)
    (intrPage : Nat → Nat → Bool) (fuel : Nat) :
    ∀ (st : St) (c : Nat),
      (scrape_loop hash clean provider intrL intrPage fuel st c).2 ≤ c + fuel := by
  induction fuel with
  | zero => intro st c; simp [scrape_loop]
  | succ fuel ih =>
    intro st c
    rw [scrape_loop]
    split_ifs with hgo
    · have := ih (fetch_and_process_next_url hash clean provider (intrPage c) st) (c + 1)
      omega
    · simp

theorem scrape_loop_guard_stop (hash clean : Str → Str)
    (provider : Str → Option (List PageItem)) (intrL : Nat → Bool)
    (intrPage : Nat → Nat → Bool) (fuel : Nat) (st : St) (c : Nat)
    (h : ¬(c < URL_PROCESS_LIMIT ∧ intrL c = false)) :
    scrape_loop hash clean provider intrL intrPage fuel st c = (st, c) := by
  cases fuel with
  | zero => rfl
  | succ fuel => rw [scrape_loop, if_neg h]

/-- The structural fuel is not the binding constraint: any two fuels that
both cover the distance from the counter to `URL_PROCESS_LIMIT` give the
same run, so the loop genuinely terminates by its own guard. -/
theorem scrape_loop_fuel_irrelevant (hash clean : Str → Str)
    (provider : Str → Option (List PageItem)) (intrL : Nat → Bool)
    (intrPage : Nat → Nat → Bool) (f1 f2 : Nat) :
    ∀ (st : St) (c : Nat), URL_PROCESS_LIMIT ≤ c + f1 → URL_PROCESS_LIMIT ≤ c + f2 →
      scrape_loop hash clean provider intrL intrPage f1 st c =
      scrape_loop hash clean provider intrL intrPage f2 st c := by
  induction f1 generalizing f2 with
  | zero =>
    intro st c h1 h2
    rw [scrape_loop_guard_stop _ _ _ _ _ _ _ _ (by omega),
      scrape_loop_guard_stop _ _ _ _ _ _ _ _ (by omega)]
  | succ f1 ih =>
    intro st c h1 h2
    by_cases hgo : c < URL_PROCESS_LIMIT ∧ intrL c = false
    · cases f2 with
      | zero => omega
      | succ f2 =>
        rw [scrape_loop, scrape_loop, if_pos hgo, if_pos hgo]
        exact ih f2 _ (c + 1) (by omega) (by omega)
    · rw [scrape_loop_guard_stop _ _ _ _ _ _ _ _ hgo,
        scrape_loop_guard_stop _ _ _ _ _ _ _ _ hgo]

/-- C9 counterexample: `normalize_base_url` is not idempotent on all
inputs — on `""` it yields `"https:"`, which re-normalizes to
`"https://https:"` — and it strips every trailing slash, not exactly one:
`"https://a//"` becomes `"https://a"`, not `"https://a/"`. -/
theorem C9_counterexample :
    normalize_base_url (normalize_base_url "".toList) ≠ normalize_base_url "".toList
    ∧ normalize_base_url "https://a//".toList = "https://a".toList
    ∧ normalize_base_url "https://a//".toList ≠ "https://a/".toList := by
  decide

/-- C9 (amended): `normalize_base_url` prepends `https://` when no scheme
prefix is present and strips all trailing slashes, so its result never
ends in a slash; it is idempotent on every input whose normalized form
still carries a scheme prefix. -/
theorem C9_amended_theorem (s : Str) :
    (normalize_base_url s).getLast? ≠ some '/'
    ∧ (hasScheme s = false →
        normalize_base_url s = rstripSlash ("https://".toList ++ s))
    ∧ (hasScheme (normalize_base_url s) = true →
        normalize_base_url (normalize_base_url s) = normalize_base_url s) := by
  refine ⟨?_, ?_, ?_⟩
  · unfold normalize_base_url
    exact rstripSlash_getLast _
  · intro h
    simp [normalize_base_url, h]
  · intro h
    conv_lhs => rw [normalize_base_url]
    rw [if_pos h]
    have hdef : normalize_base_url s
        = rstripSlash (if hasScheme s then s else "https://".toList ++ s) := rfl
    rw [hdef, rstripSlash_idem]

/-- C9 witness: the amended statement instantiated at `"example.com"`,
whose normalized form `"https://example.com"` carries a scheme prefix. -/
theorem C9_witness :
    hasScheme "example.com".toList = false
    ∧ hasScheme (normalize_base_url "example.com".toList) = true
    ∧ ((normalize_base_url "example.com".toList).getLast? ≠ some '/'
        ∧ (hasScheme "example.com".toList = false →
            normalize_base_url "example.com".toList
              = rstripSlash ("https://".toList ++ "example.com".toList))
        ∧ (hasScheme (normalize_base_url "example.com".toList) = true →
            normalize_base_url (normalize_base_url "example.com".toList)
              = normalize_base_url "example.com".toList)) :=
  ⟨by decide, by decide, C9_amended_theorem "example.com".toList⟩

theorem utf8Encode_replicate_a (n : Nat) :
    (utf8Encode (List.replicate n 'a')).length = n := by
  induction n with
  | zero => rfl
  | succ n ih =>
    rw [List.replicate_succ]
    have h : (utf8EncodeChar 'a').length = 1 := by decide
    simp only [utf8Encode, List.length_append, ih, h]
    omega

/-- A non-duplicate insert appends exactly one document, whose `content`
is the truncation and whose `content_hash` is the digest of the original
text. -/
theorem insert_document_fresh (hash : Str → Str)
    (doc_id base_url unitid website url content : Str) (docs : List DocRec)
    (hnodup : ∀ d ∈ docs, d.content_hash ≠ hash content) :
    insert_document hash doc_id base_url unitid website url content docs
      = docs ++ [⟨doc_id, base_url, unitid, website, url,
          truncate_content content MAX_DOC_SIZE, hash content⟩] := by
  have h1 : document_exists base_url (hash content) docs = false := by
    unfold document_exists
    rw [List.any_eq_false]
    intro d hd
    simp only [Bool.and_eq_true, beq_iff_eq, not_and]
    intro _ hh
    exact hnodup d hd hh
  have h2 : docs.any (fun d => d.Base_URL == base_url && d.content_hash == hash content)
      = false := by
    rw [List.any_eq_false]
    intro d hd
    simp only [Bool.and_eq_true, beq_iff_eq, not_and]
    intro _ hh
    exact hnodup d hd hh
  simp [insert_document, h1, h2, UPDATE_EXISTING]

/-- C7: when the cleaned text exceeds `MAX_DOC_SIZE` UTF-8 bytes and is
not a duplicate, `insert_document` stores it with `content` truncated via
`truncate_content` — whose re-encoding is at most `MAX_DOC_SIZE` bytes,
invalid trailing bytes of a split character being dropped — while
`content_hash` is the digest of the original untruncated text. -/
theorem C7_theorem (hash : Str → Str) (doc_id base_url unitid website url content : Str)
    (docs : List DocRec)
    (hbig : MAX_DOC_SIZE < (utf8Encode content).length)
    (hnodup : ∀ d ∈ docs, d.content_hash ≠ hash content) :
    insert_document hash doc_id base_url unitid website url content docs
      = docs ++ [⟨doc_id, base_url, unitid, website, url,
          truncate_content content MAX_DOC_SIZE, hash content⟩]
    ∧ (utf8Encode (truncate_content content MAX_DOC_SIZE)).length ≤ MAX_DOC_SIZE := by
  constructor
  · exact insert_document_fresh hash doc_id base_url unitid website url content docs hnodup
  · exact truncate_content_le content MAX_DOC_SIZE hbig

/-- C7 witness: a text of 1048577 ASCII characters (one byte over the
1 MiB cap) inserted into an empty store. -/
theorem C7_witness :
    MAX_DOC_SIZE < (utf8Encode (List.replicate 1048577 'a')).length
    ∧ (insert_document (fun t => t) "i".toList "b".toList "u".toList "w".toList "p".toList
          (List.replicate 1048577 'a') []
        = [] ++ [⟨"i".toList, "b".toList, "u".toList, "w".toList, "p".toList,
            truncate_content (List.replicate 1048577 'a') MAX_DOC_SIZE,
            (fun t => t) (List.replicate 1048577 'a')⟩]
      ∧ (utf8Encode (truncate_content (List.replicate 1048577 'a') MAX_DOC_SIZE)).length
          ≤ MAX_DOC_SIZE) := by
  have hbig : MAX_DOC_SIZE < (utf8Encode (List.replicate 1048577 'a')).length := by
    rw [utf8Encode_replicate_a]
    decide
  exact ⟨hbig,
    C7_theorem (fun t => t) "i".toList "b".toList "u".toList "w".toList "p".toList
      (List.replicate 1048577 'a') [] hbig (fun d hd => absurd hd (List.not_mem_nil d))⟩

/-- C8: two pages of the same (already normalized) site with identical
cleaned text but different source URLs, inserted in order: the first
insert stores a document, the second is skipped as a duplicate. The dedup
key is `(Base_URL, content_hash)` — content only, not the page URL — even
though the document id hashes text plus URL. When the stored `Base_URL`
is not a fixed point of normalization the `document_exists` probe misses,
but the unique index (`DuplicateKeyError`, caught and skipped) still
prevents a second copy. -/
theorem C8_theorem (hash : Str → Str) (docs : List DocRec)
    (n unitid url1 url2 text : Str)
    (hnodup : ∀ d ∈ docs, d.content_hash ≠ hash text) :
    insert_document hash (hash (text ++ url1)) n unitid n url1 text docs
      = docs ++ [⟨hash (text ++ url1), n, unitid, n, url1,
          truncate_content text MAX_DOC_SIZE, hash text⟩]
    ∧ insert_document hash (hash (text ++ url2)) n unitid n url2 text
        (docs ++ [⟨hash (text ++ url1), n, unitid, n, url1,
          truncate_content text MAX_DOC_SIZE, hash text⟩])
      = docs ++ [⟨hash (text ++ url1), n, unitid, n, url1,
          truncate_content text MAX_DOC_SIZE, hash text⟩] := by
  constructor
  · exact insert_document_fresh hash (hash (text ++ url1)) n unitid n url1 text docs hnodup
  · by_cases hnn : normalize_base_url n = n
    · have hex : document_exists n (hash text)
          (docs ++ [⟨hash (text ++ url1), n, unitid, n, url1,
            truncate_content text MAX_DOC_SIZE, hash text⟩]) = true := by
        unfold document_exists
        rw [List.any_append]
        simp [hnn]
      simp [insert_document, hex, UPDATE_EXISTING]
    · have hex : document_exists n (hash text)
          (docs ++ [⟨hash (text ++ url1), n, unitid, n, url1,
            truncate_content text MAX_DOC_SIZE, hash text⟩]) = false := by
        unfold document_exists
        rw [List.any_append]
        rw [Bool.or_eq_false_iff]
        constructor
        · rw [List.any_eq_false]
          intro d hd
          simp only [Bool.and_eq_true, beq_iff_eq, not_and]
          intro _ hh
          exact hnodup d hd hh
        · simp
          intro hh
          exact absurd hh.symm hnn
      have huniq : (docs ++ [(⟨hash (text ++ url1), n, unitid, n, url1,
            truncate_content text MAX_DOC_SIZE, hash text⟩ : DocRec)]).any
          (fun d => d.Base_URL == n && d.content_hash == hash text) = true := by
        rw [List.any_append]
        simp
      simp [insert_document, hex, huniq, UPDATE_EXISTING]

/-- C8 witness: two pages of `https://x.com` with the same text `T` and
different URLs, into an empty store. -/
theorem C8_witness :
    insert_document (fun t => t)
        ((fun t => t) ("T".toList ++ "https://x.com/a".toList)) "https://x.com".toList
        "1".toList "https://x.com".toList "https://x.com/a".toList "T".toList []
      = [] ++ [⟨(fun t => t) ("T".toList ++ "https://x.com/a".toList), "https://x.com".toList,
          "1".toList, "https://x.com".toList, "https://x.com/a".toList,
          truncate_content "T".toList MAX_DOC_SIZE, (fun t => t) "T".toList⟩]
    ∧ insert_document (fun t => t)
        ((fun t => t) ("T".toList ++ "https://x.com/b".toList)) "https://x.com".toList
        "1".toList "https://x.com".toList "https://x.com/b".toList "T".toList
        ([] ++ [⟨(fun t => t) ("T".toList ++ "https://x.com/a".toList), "https://x.com".toList,
          "1".toList, "https://x.com".toList, "https://x.com/a".toList,
          truncate_content "T".toList MAX_DOC_SIZE, (fun t => t) "T".toList⟩])
      = [] ++ [⟨(fun t => t) ("T".toList ++ "https://x.com/a".toList), "https://x.com".toList,
          "1".toList, "https://x.com".toList, "https://x.com/a".toList,
          truncate_content "T".toList MAX_DOC_SIZE, (fun t => t) "T".toList⟩] :=
  C8_theorem (fun t => t) [] "https://x.com".toList "1".toList
    "https://x.com/a".toList "https://x.com/b".toList "T".toList
    (fun d hd => absurd hd (List.not_mem_nil d))

theorem find_one_and_update_spec (p : SchoolRec → Bool) (f : SchoolRec → SchoolRec) :
    ∀ (ss : List SchoolRec) (i : Nat) (r : SchoolRec) (ss2 : List SchoolRec),
      find_one_and_update p f ss = (some (i, r), ss2) →
      ∃ h : i < ss.length,
        p ss[i] = true ∧ r = f ss[i] ∧ ss2 = ss.set i (f ss[i]) := by
  intro ss
  induction ss with
  | nil =>
    intro i r ss2 h
    simp [find_one_and_update] at h
  | cons s ss ih =>
    intro i r ss2 h
    by_cases hp : p s = true
    · rw [find_one_and_update, if_pos hp, Prod.mk.injEq, Option.some.injEq,
        Prod.mk.injEq] at h
      obtain ⟨⟨hi, hr⟩, hss⟩ := h
      subst hi
      exact ⟨by simp, hp, hr.symm, by simp [hss]⟩
    · rw [find_one_and_update, if_neg hp] at h
      rcases hfou : find_one_and_update p f ss with ⟨o, l2⟩
      rw [hfou] at h
      dsimp only at h
      rw [Prod.mk.injEq] at h
      obtain ⟨h1, h2⟩ := h
      cases o with
      | none => simp at h1
      | some ir =>
        obtain ⟨i0, r0⟩ := ir
        simp only [Option.map_some', Option.some.injEq, Prod.mk.injEq] at h1
        obtain ⟨hi, hr⟩ := h1
        subst hi
        subst hr
        obtain ⟨hlt, hpi, hri, hset⟩ := ih i0 r0 l2 hfou
        refine ⟨by simpa using Nat.succ_lt_succ hlt, ?_, ?_, ?_⟩
        · simpa using hpi
        · simpa using hri
        · rw [← h2, hset]
          simp [List.set_cons_succ]

/-- C1: `claimNext` is the single atomic `find_one_and_update` of
`fetch_and_process_next_url`. Serializing any two concurrent callers
against the same registry, the second operation — running on the state
the first left behind, before the first caller performs any further
transition — can never select the record (position) the first was given:
the first atomically set `processing`, which falsifies the claim filter. -/
theorem C1_theorem (ss : List SchoolRec) (i : Nat) (r : SchoolRec) (ss2 : List SchoolRec)
    (j : Nat) (r2 : SchoolRec) (ss3 : List SchoolRec)
    (h1 : find_one_and_update claimable set_processing ss = (some (i, r), ss2))
    (h2 : find_one_and_update claimable set_processing ss2 = (some (j, r2), ss3)) :
    j ≠ i := by
  obtain ⟨hi, hpi, hri, hset⟩ :=
    find_one_and_update_spec claimable set_processing ss i r ss2 h1
  obtain ⟨hj, hpj, hrj, hset2⟩ :=
    find_one_and_update_spec claimable set_processing ss2 j r2 ss3 h2
  intro hji
  subst hji
  subst hset
  have hval : (ss.set j (set_processing ss[j]))[j] = set_processing ss[j] :=
    List.getElem_set_self (by simpa using hj)
  rw [hval] at hpj
  simp [claimable, set_processing] at hpj

/-- C1 witness: two eligible registry records; the first claim takes
position 0, a second claim on the resulting registry takes position 1. -/
theorem C1_witness :
    find_one_and_update claimable set_processing
        [⟨"https://a.com".toList, "1".toList, false, false, false, 0⟩,
          ⟨"https://b.com".toList, "2".toList, false, false, false, 0⟩]
      = (some (0, ⟨"https://a.com".toList, "1".toList, false, true, false, 0⟩),
          [⟨"https://a.com".toList, "1".toList, false, true, false, 0⟩,
            ⟨"https://b.com".toList, "2".toList, false, false, false, 0⟩])
    ∧ find_one_and_update claimable set_processing
        [⟨"https://a.com".toList, "1".toList, false, true, false, 0⟩,
          ⟨"https://b.com".toList, "2".toList, false, false, false, 0⟩]
      = (some (1, ⟨"https://b.com".toList, "2".toList, false, true, false, 0⟩),
          [⟨"https://a.com".toList, "1".toList, false, true, false, 0⟩,
            ⟨"https://b.com".toList, "2".toList, false, true, false, 0⟩])
    ∧ (1 : Nat) ≠ 0 :=
  ⟨by decide, by decide,
    C1_theorem
      [⟨"https://a.com".toList, "1".toList, false, false, false, 0⟩,
        ⟨"https://b.com".toList, "2".toList, false, false, false, 0⟩]
      0 ⟨"https://a.com".toList, "1".toList, false, true, false, 0⟩
      [⟨"https://a.com".toList, "1".toList, false, true, false, 0⟩,
        ⟨"https://b.com".toList, "2".toList, false, false, false, 0⟩]
      1 ⟨"https://b.com".toList, "2".toList, false, true, false, 0⟩
      [⟨"https://a.com".toList, "1".toList, false, true, false, 0⟩,
        ⟨"https://b.com".toList, "2".toList, false, true, false, 0⟩]
      (by decide) (by decide)⟩

/-- C3: evaluation at the failing input. A claimed record
(`processing = true`, `retry_count = 0`) whose fetch fails once is only
incremented to `retry_count = 1`; `mark_as_error` below the limit leaves
`processing = true`, so the record does not return to Pending and is not
claimable by any subsequent `claimNext` — the code leaves it stuck as
Claimed, contradicting the claim (and §4.4/§9 of the spec, which calls
this a bug in the original). -/
theorem C3_code_eval :
    mark_as_error "example.com".toList
        ⟨[], [⟨"example.com".toList, "1".toList, false, true, false, 0⟩]⟩
      = ⟨[], [⟨"example.com".toList, "1".toList, false, true, false, 1⟩]⟩
    ∧ claimable ⟨"example.com".toList, "1".toList, false, true, false, 1⟩ = false
    ∧ (find_one_and_update claimable set_processing
        [⟨"example.com".toList, "1".toList, false, true, false, 1⟩]).1 = none := by
  decide

/-- C4: the failure transition applied three times to a record with
`retry_count = 0` (each provider failure calls `mark_as_error`, the
configured `RETRY_LIMIT` being 3) yields `error = true` with
`retry_count = 3`, the record is not claimable, and `claimNext` on a
registry holding it selects nothing. -/
theorem C4_theorem (docs : List DocRec) (s : SchoolRec) (h0 : s.retry_count = 0) :
    mark_as_error s.webaddr (mark_as_error s.webaddr (mark_as_error s.webaddr ⟨docs, [s]⟩))
      = ⟨docs, [{ s with retry_count := 3, error := true, processing := false }]⟩
    ∧ claimable { s with retry_count := 3, error := true, processing := false } = false
    ∧ (find_one_and_update claimable set_processing
        [{ s with retry_count := 3, error := true, processing := false }]).1 = none := by
  obtain ⟨w, u, p, pr, e, rc⟩ := s
  simp only at h0
  subst h0
  refine ⟨?_, by simp [claimable], by simp [find_one_and_update, claimable]⟩
  simp [mark_as_error, update_first, find_one, List.find?, RETRY_LIMIT]

/-- C4 witness: the three-failure run at a concrete record. -/
theorem C4_witness :
    mark_as_error "https://c.com".toList
        (mark_as_error "https://c.com".toList
          (mark_as_error "https://c.com".toList
            ⟨[], [⟨"https://c.com".toList, "3".toList, false, true, false, 0⟩]⟩))
      = ⟨[], [⟨"https://c.com".toList, "3".toList, false, false, true, 3⟩]⟩
    ∧ claimable ⟨"https://c.com".toList, "3".toList, false, false, true, 3⟩ = false
    ∧ (find_one_and_update claimable set_processing
        [⟨"https://c.com".toList, "3".toList, false, false, true, 3⟩]).1 = none :=
  C4_theorem [] ⟨"https://c.com".toList, "3".toList, false, true, false, 0⟩ rfl

/-- C2 counterexample: a claimed site with raw address `example.com` and
a stored document under its normalized address
`https://example.com`. `process_data` does skip the provider (second
component `false`), but `baseurl_already_processed` updates the school
keyed by the *normalized* address, which matches no record, so the site
does not transition to Completed: it stays `processed = false`,
`processing = true`. -/
theorem C2_counterexample :
    process_data (fun t => t) (fun t => t) (fun _ => none) (fun _ => false)
        ⟨[⟨"i".toList, "https://example.com".toList, "1".toList,
            "https://example.com".toList, "https://example.com/p".toList,
            "T".toList, "H".toList⟩],
          [⟨"example.com".toList, "1".toList, false, true, false, 0⟩]⟩
        ⟨"example.com".toList, "1".toList, false, true, false, 0⟩
      = (⟨[⟨"i".toList, "https://example.com".toList, "1".toList,
            "https://example.com".toList, "https://example.com/p".toList,
            "T".toList, "H".toList⟩],
          [⟨"example.com".toList, "1".toList, false, true, false, 0⟩]⟩, false)
    ∧ (⟨"example.com".toList, "1".toList, false, true, false, 0⟩ : SchoolRec).processed
        = false := by
  decide

/-- C2 (amended): for a claimed site whose stored address is already in
normalized form (a fixed point of `normalize_base_url`) and that has a
stored document under that address, `process_data` stops before invoking
the crawl provider (second component `false`) and transitions the record
directly to Completed (`processed = true`, `processing = false`). -/
theorem C2_amended_theorem (hash clean : Str → Str)
    (provider : Str → Option (List PageItem)) (intr : Nat → Bool)
    (docs0 : List DocRec) (s data : SchoolRec) (rest : List SchoolRec)
    (hw : data.webaddr ≠ []) (hu : data.unitid ≠ [])
    (hcanon : normalize_base_url data.webaddr = data.webaddr)
    (hdoc : (docs0.find? (fun d => d.Base_URL == data.webaddr)).isSome = true)
    (hs : s.webaddr = data.webaddr) :
    process_data hash clean provider intr ⟨docs0, s :: rest⟩ data
      = (⟨docs0, { s with processed := true, processing := false } :: rest⟩, false) := by
  have hg : (data.webaddr == [] || data.unitid == []) = false := by
    simp [hw, hu]
  obtain ⟨d0, hd0⟩ := Option.isSome_iff_exists.mp hdoc
  unfold process_data baseurl_already_processed
  simp only [hg, hcanon, hd0]
  simp [update_first, hs]

/-- C2 witness: the amended statement at a site whose stored address is
already normalized. -/
theorem C2_witness :
    "https://example.com".toList ≠ ([] : Str)
    ∧ normalize_base_url "https://example.com".toList = "https://example.com".toList
    ∧ process_data (fun t => t) (fun t => t) (fun _ => none) (fun _ => false)
        ⟨[⟨"i".toList, "https://example.com".toList, "1".toList,
            "https://example.com".toList, "https://example.com/p".toList,
            "T".toList, "H".toList⟩],
          [⟨"https://example.com".toList, "1".toList, false, true, false, 0⟩]⟩
        ⟨"https://example.com".toList, "1".toList, false, true, false, 0⟩
      = (⟨[⟨"i".toList, "https://example.com".toList, "1".toList,
            "https://example.com".toList, "https://example.com/p".toList,
            "T".toList, "H".toList⟩],
          [⟨"https://example.com".toList, "1".toList, true, false, false, 0⟩]⟩, false) :=
  ⟨by decide, by decide,
    C2_amended_theorem (fun t => t) (fun t => t) (fun _ => none) (fun _ => false)
      [⟨"i".toList, "https://example.com".toList, "1".toList,
          "https://example.com".toList, "https://example.com/p".toList,
          "T".toList, "H".toList⟩]
      ⟨"https://example.com".toList, "1".toList, false, true, false, 0⟩
      ⟨"https://example.com".toList, "1".toList, false, true, false, 0⟩
      [] (by decide) (by decide) (by decide) (by decide) (by decide)⟩

theorem pageLoop_cancel (hash clean : Str → Str) (base_url nurl unitid : Str)
    (intr : Nat → Bool) :
    ∀ (j : Nat) (items : List PageItem) (i : Nat) (st : St),
      j < items.length →
      (∀ d, d < j → intr (i + d) = false) → intr (i + j) = true →
      pageLoop hash clean base_url nurl unitid intr items i st
        = { documents := insertPages hash clean nurl unitid (items.take j) st.documents,
            school_data := update_first (fun t => t.webaddr == base_url)
              (fun t => { t with processing := false }) st.school_data } := by
  intro j
  induction j with
  | zero =>
    intro items i st hj hbefore hat
    cases items with
    | nil => simp at hj
    | cons item rest =>
      rw [pageLoop, if_pos (by simpa using hat)]
      simp [insertPages]
  | succ j ih =>
    intro items i st hj hbefore hat
    cases items with
    | nil => simp at hj
    | cons item rest =>
      have h0 : intr i = false := by simpa using hbefore 0 (by omega)
      have hbefore2 : ∀ d, d < j → intr (i + 1 + d) = false := by
        intro d hd
        have h := hbefore (d + 1) (by omega)
        rwa [show i + (d + 1) = i + 1 + d by omega] at h
      have hat2 : intr (i + 1 + j) = true := by
        rwa [show i + (j + 1) = i + 1 + j by omega] at hat
      rw [pageLoop, if_neg (by simp [h0])]
      cases hc : item.content with
      | none =>
        dsimp only
        rw [ih rest (i + 1) st (by simpa using hj) hbefore2 hat2]
        rw [List.take_succ_cons]
        simp [insertPages, hc]
      | some html =>
        dsimp only
        rw [ih rest (i + 1) _ (by simpa using hj) hbefore2 hat2]
        rw [List.take_succ_cons]
        simp [insertPages, hc]

/-- C6: a crawl session cancelled at the top of page iteration `j` keeps
exactly the documents inserted by the first `j` iterations, clears
`processing` on the site record (back to Pending, hence claimable again),
leaves `processed` unset, and leaves `retry_count` unchanged. -/
theorem C6_theorem (hash clean : Str → Str) (provider : Str → Option (List PageItem))
    (intr : Nat → Bool) (docs0 : List DocRec) (s : SchoolRec) (rest : List SchoolRec)
    (items : List PageItem) (j : Nat)
    (hw : s.webaddr ≠ []) (hu : s.unitid ≠ [])
    (hnodoc : docs0.find?
        (fun d => d.Base_URL == normalize_base_url (normalize_base_url s.webaddr)) = none)
    (hprov : provider (normalize_base_url s.webaddr) = some items)
    (hj : j < items.length)
    (hbefore : ∀ d, d < j → intr d = false) (hat : intr j = true)
    (hproc : s.processed = false) (herr : s.error = false) :
    process_data hash clean provider intr ⟨docs0, s :: rest⟩ s
      = (⟨insertPages hash clean (normalize_base_url s.webaddr) s.unitid
            (items.take j) docs0,
          { s with processing := false } :: rest⟩, true)
    ∧ claimable { s with processing := false } = true
    ∧ ({ s with processing := false }).retry_count = s.retry_count
    ∧ ({ s with processing := false }).processed = false := by
  refine ⟨?_, by simp [claimable, hproc, herr], rfl, by simp [hproc]⟩
  have hg : (s.webaddr == [] || s.unitid == []) = false := by
    simp [hw, hu]
  unfold process_data baseurl_already_processed
  simp only [hg, hnodoc, hprov]
  have hcancel := pageLoop_cancel hash clean s.webaddr (normalize_base_url s.webaddr)
    s.unitid intr j items 0 ⟨docs0, s :: rest⟩ hj (by simpa using hbefore) (by simpa using hat)
  simp only [hcancel]
  simp [update_first]

/-- C6 witness: a three-page session cancelled at the top of iteration 1,
after page 0 stored one document: exactly that document remains, the
record is Pending again with `retry_count` still 0. -/
theorem C6_witness :
    (∀ d, d < 1 → (fun i => decide (1 ≤ i)) d = false)
    ∧ (fun i => decide (1 ≤ i)) 1 = true
    ∧ (process_data (fun t => t) (fun t => t)
        (fun _ => some [⟨"https://x.com/a".toList, some "A".toList⟩,
          ⟨"https://x.com/b".toList, some "B".toList⟩,
          ⟨"https://x.com/c".toList, some "C".toList⟩])
        (fun i => decide (1 ≤ i))
        ⟨[], [⟨"https://x.com".toList, "1".toList, false, true, false, 0⟩]⟩
        ⟨"https://x.com".toList, "1".toList, false, true, false, 0⟩
      = (⟨insertPages (fun t => t) (fun t => t)
            (normalize_base_url "https://x.com".toList) "1".toList
            ([⟨"https://x.com/a".toList, some "A".toList⟩,
              ⟨"https://x.com/b".toList, some "B".toList⟩,
              ⟨"https://x.com/c".toList, some "C".toList⟩].take 1) [],
          [⟨"https://x.com".toList, "1".toList, false, false, false, 0⟩]⟩, true)
      ∧ claimable ⟨"https://x.com".toList, "1".toList, false, false, false, 0⟩ = true
      ∧ (⟨"https://x.com".toList, "1".toList, false, false, false, 0⟩ : SchoolRec).retry_count
          = (⟨"https://x.com".toList, "1".toList, false, true, false, 0⟩ : SchoolRec).retry_count
      ∧ (⟨"https://x.com".toList, "1".toList, false, false, false, 0⟩ : SchoolRec).processed
          = false) :=
  ⟨by decide, by decide,
    C6_theorem (fun t => t) (fun t => t)
      (fun _ => some [⟨"https://x.com/a".toList, some "A".toList⟩,
        ⟨"https://x.com/b".toList, some "B".toList⟩,
        ⟨"https://x.com/c".toList, some "C".toList⟩])
      (fun i => decide (1 ≤ i)) []
      ⟨"https://x.com".toList, "1".toList, false, true, false, 0⟩ []
      [⟨"https://x.com/a".toList, some "A".toList⟩,
        ⟨"https://x.com/b".toList, some "B".toList⟩,
        ⟨"https://x.com/c".toList, some "C".toList⟩] 1
      (by decide) (by decide) (by decide) rfl (by decide)
      (by decide) (by decide) rfl rfl⟩

/-- C5 counterexample: on an empty registry, `claimNext` returns `None`
already in the first iteration, yet the loop does not stop there: it
still runs all `URL_PROCESS_LIMIT = 20` iterations (the final counter is
20, not 1), because `fetch_and_process_next_url` merely returns and the
loop increments its counter unconditionally. -/
theorem C5_counterexample :
    (scrape_and_store (fun t => t) (fun t => t) (fun _ => none)
        (fun _ => false) (fun _ _ => false) ⟨[], []⟩).2 = URL_PROCESS_LIMIT
    ∧ URL_PROCESS_LIMIT ≠ 1 := by
  decide

/-- C5 (amended): the loop does not stop when `claimNext` returns `None`;
such an iteration leaves the store untouched but still increments the
counter once and continues. The loop stops exactly when the counter has
reached `URL_PROCESS_LIMIT` or the interrupted flag is read as set. -/
theorem C5_amended_theorem (hash clean : Str → Str)
    (provider : Str → Option (List PageItem)) (intrL : Nat → Bool)
    (intrPage : Nat → Nat → Bool) (st st2 : St) (fuel f2 c c2 : Nat)
    (hc : c < URL_PROCESS_LIMIT) (hi : intrL c = false)
    (hnone : (find_one_and_update claimable set_processing st.school_data).1 = none)
    (hstop : URL_PROCESS_LIMIT ≤ c2 ∨ intrL c2 = true) :
    scrape_loop hash clean provider intrL intrPage (fuel + 1) st c
      = scrape_loop hash clean provider intrL intrPage fuel st (c + 1)
    ∧ scrape_loop hash clean provider intrL intrPage f2 st2 c2 = (st2, c2) := by
  constructor
  · rw [scrape_loop, if_pos ⟨hc, hi⟩]
    have hfetch : fetch_and_process_next_url hash clean provider (intrPage c) st = st := by
      unfold fetch_and_process_next_url
      rcases hfou : find_one_and_update claimable set_processing st.school_data with ⟨o, l2⟩
      rw [hfou] at hnone
      simp only at hnone
      subst hnone
      rfl
    rw [hfetch]
  · apply scrape_loop_guard_stop
    intro hcontra
    rcases hstop with h | h
    · omega
    · rw [hcontra.2] at h
      exact Bool.false_ne_true h

/-- C5 witness: the amended statement at the empty store with the counter
at 0 and the stop condition at the exhausted counter. -/
theorem C5_witness :
    (0 : Nat) < URL_PROCESS_LIMIT
    ∧ (find_one_and_update claimable set_processing ([] : List SchoolRec)).1 = none
    ∧ (scrape_loop (fun t => t) (fun t => t) (fun _ => none) (fun _ => false)
          (fun _ _ => false) 1 ⟨[], []⟩ 0
        = scrape_loop (fun t => t) (fun t => t) (fun _ => none) (fun _ => false)
          (fun _ _ => false) 0 ⟨[], []⟩ 1
      ∧ scrape_loop (fun t => t) (fun t => t) (fun _ => none) (fun _ => false)
          (fun _ _ => false) 5 ⟨[], []⟩ URL_PROCESS_LIMIT
        = (⟨[], []⟩, URL_PROCESS_LIMIT)) :=
  ⟨by decide, by decide,
    C5_amended_theorem (fun t => t) (fun t => t) (fun _ => none) (fun _ => false)
      (fun _ _ => false) ⟨[], []⟩ ⟨[], []⟩ 0 5 0 URL_PROCESS_LIMIT
      (by decide) rfl (by decide) (Or.inl (by omega))⟩

/-- C10: the orchestrator loop terminates after at most
`URL_PROCESS_LIMIT` iterations from any initial store and any provider or
interruption schedule, because `processed_count` is incremented on every
iteration — also when `claimNext` returned `None` and nothing was
processed; moreover the run does not depend on the structural recursion
budget once that budget covers `URL_PROCESS_LIMIT`, so the guard alone
stops the loop. -/
theorem C10_theorem (hash clean : Str → Str) (provider : Str → Option (List PageItem))
    (intrL : Nat → Bool) (intrPage : Nat → Nat → Bool) (st : St) (extra : Nat) :
    (scrape_and_store hash clean provider intrL intrPage st).2 ≤ URL_PROCESS_LIMIT
    ∧ scrape_loop hash clean provider intrL intrPage (URL_PROCESS_LIMIT + extra) st 0
      = scrape_and_store hash clean provider intrL intrPage st := by
  constructor
  · have h := scrape_loop_count_le hash clean provider intrL intrPage
      URL_PROCESS_LIMIT st 0
    unfold scrape_and_store
    omega
  · unfold scrape_and_store
    exact scrape_loop_fuel_irrelevant hash clean provider intrL intrPage
      (URL_PROCESS_LIMIT + extra) URL_PROCESS_LIMIT st 0 (by omega) (by omega)
